import Mathlib

/-!
Shallow embedding of the core of the MediaConverter repository
(job manager, media wrappers, scanner, path validation) together with
proofs settling the frozen claims about its specification.

Every definition below is translated from the Go source:
  * `internal/security/security.go` (ValidatePath),
  * the media package (ffmpeg.go / makemkv.go / progress.go),
  * the jobs package (manager.go, the version with persistence,
    disc-image auto-extraction and AI hooks),
  * the scanner package (scanner.go).
Standard-library helpers used by that code (`path/filepath.Clean`,
`Join`, `Ext`, `Dir`, `Base`, `strings.HasPrefix`, `strconv`) are
modelled explicitly for Unix path syntax.  File-system and subprocess
effects are passed in as explicit environment records; wall-clock
timestamps and on-disk persistence are not modelled (no claim depends
on them).  Go `float64` arithmetic is modelled over `ℚ`; every concrete
input used in a theorem below makes the float computation exact, so the
rational model agrees with the code on those inputs.
-/

namespace MediaConverter

/-! ## String helpers (models of Go standard library functions) -/

/-- Model of `strings.HasPrefix` (byte-level prefix; identical to
character-level prefix for the ASCII strings handled here). -/
def hasPrefixStr (p s : String) : Bool :=
  p.data.isPrefixOf s.data

/-- Model of `strings.HasSuffix`. -/
def hasSuffixStr (p s : String) : Bool :=
  p.data.reverse.isPrefixOf s.data.reverse

/-- Split a character list at every occurrence of the separator
(model of `strings.Split` at the character level). -/
def splitChar : List Char → Char → List (List Char)
  | [], _ => [[]]
  | c :: rest, sep =>
    let r := splitChar rest sep
    if c = sep then [] :: r
    else
      match r with
      | h :: t => (c :: h) :: t
      | [] => [[c]]

/-- Decimal value of a digit list (most significant first). -/
def digitsToNat (l : List Char) : Nat :=
  l.foldl (fun a c => a * 10 + (c.toNat - 48)) 0

/-- Decimal digit characters of a natural number, fuel-based. -/
def natToCharsAux : Nat → Nat → List Char
  | 0, _ => []
  | fuel + 1, n =>
    if n < 10 then [Char.ofNat (n + 48)]
    else natToCharsAux fuel (n / 10) ++ [Char.ofNat (n % 10 + 48)]

/-- Decimal string of a natural number. -/
def natToStr (n : Nat) : String :=
  ⟨natToCharsAux (n + 1) n⟩

/-- Model of Go `fmt.Sprintf "%02d"` on an integer: pad with a leading
zero up to width two (negative values print sign plus digits). -/
def format02d (i : Int) : String :=
  if i < 0 then "-" ++ natToStr (-i).toNat
  else
    let s := natToStr i.toNat
    if s.data.length < 2 then "0" ++ s else s

/-- Truncation toward zero of a rational, the semantics of Go's
`int(f)` conversion on a finite float. -/
def goTrunc (q : ℚ) : Int :=
  Int.tdiv q.num q.den

/-- Model of `strconv.Atoi` with the error ignored: the value of an
optionally signed run of decimal digits, `0` when the string is not of
that shape (Go returns value `0` alongside the error). -/
def goAtoi (s : String) : Int :=
  match s.data with
  | '-' :: rest => if rest ≠ [] ∧ rest.all Char.isDigit then -(digitsToNat rest) else 0
  | '+' :: rest => if rest ≠ [] ∧ rest.all Char.isDigit then (digitsToNat rest : Int) else 0
  | l => if l ≠ [] ∧ l.all Char.isDigit then (digitsToNat l : Int) else 0

/-- Value of an unsigned decimal literal with optional fractional part
(character list form), `none` when malformed. -/
def parseUnsignedQ (l : List Char) : Option ℚ :=
  let intPart := l.takeWhile Char.isDigit
  let after := l.drop intPart.length
  match after with
  | [] => if intPart = [] then none else some (digitsToNat intPart : ℚ)
  | '.' :: frac =>
    if frac.all Char.isDigit ∧ (intPart ≠ [] ∨ frac ≠ []) then
      some ((digitsToNat intPart : ℚ) + (digitsToNat frac : ℚ) / (10 : ℚ) ^ frac.length)
    else none
  | _ => none

/-- Model of `strconv.ParseFloat` with the error ignored: the exact
rational value of a plain decimal literal, `0` on anything else. -/
def goParseFloat (s : String) : ℚ :=
  match s.data with
  | '-' :: rest => -((parseUnsignedQ rest).getD 0)
  | '+' :: rest => (parseUnsignedQ rest).getD 0
  | l => (parseUnsignedQ l).getD 0

/-! ## Path helpers (models of Go `path/filepath`, Unix rules) -/

/-- One step of the `filepath.Clean` element loop over a segment stack
kept in reverse order.  `rooted` tells whether the path is absolute, in
which case `..` at the root is dropped. -/
def cleanPush (rooted : Bool) (st : List (List Char)) (seg : List Char) : List (List Char) :=
  if seg = [] ∨ seg = ['.'] then st
  else if seg = ['.', '.'] then
    match st with
    | top :: rest => if top = ['.', '.'] then seg :: st else rest
    | [] => if rooted then [] else [seg]
  else seg :: st

/-- Join segments with `/` separators. -/
def joinSegs : List (List Char) → List Char
  | [] => []
  | [s] => s
  | s :: rest => s ++ '/' :: joinSegs rest

/-- Model of `filepath.Clean` for Unix paths: resolve `.` and `..`
segments, squeeze separators, drop trailing separators. -/
def goClean (p : String) : String :=
  if p = "" then "."
  else
    let rooted := hasPrefixStr "/" p
    let segs := splitChar p.data '/'
    let st := (segs.foldl (cleanPush rooted) []).reverse
    if st = [] then (if rooted then "/" else ".")
    else (if rooted then "/" else "") ++ (⟨joinSegs st⟩ : String)

/-- Model of `filepath.IsAbs` for Unix paths. -/
def goIsAbs (p : String) : Bool :=
  hasPrefixStr "/" p

/-- Model of `filepath.Join` on two non-empty elements. -/
def goJoin (a b : String) : String :=
  goClean (a ++ "/" ++ b)

/-- Model of `filepath.Abs`: clean an absolute path, otherwise join it
to the working directory `cwd` (which the process obtains from
`os.Getwd`). -/
def goAbs (cwd p : String) : String :=
  if goIsAbs p then goClean p else goJoin cwd p

/-- Model of `filepath.Ext` scanning the reversed path: the suffix from
the final dot of the final element, empty when a separator is met
first. -/
def goExtAux : List Char → List Char → String
  | [], _ => ""
  | '.' :: _, acc => ⟨'.' :: acc⟩
  | '/' :: _, _ => ""
  | c :: rest, acc => goExtAux rest (c :: acc)

/-- Model of `filepath.Ext`. -/
def goExt (p : String) : String :=
  goExtAux p.data.reverse []

/-- Model of `filepath.Dir`: everything up to and including the final
separator, cleaned; `"."` when there is no separator. -/
def goDir (p : String) : String :=
  let kept := (p.data.reverse.dropWhile (· ≠ '/')).reverse
  if kept = [] then "." else goClean ⟨kept⟩

/-- Model of `filepath.Base`: the final non-empty element after
dropping trailing separators. -/
def goBase (p : String) : String :=
  if p = "" then "."
  else
    let cs := p.data.reverse.dropWhile (· = '/')
    if cs = [] then "/"
    else ⟨(cs.takeWhile (· ≠ '/')).reverse⟩

/-- Model of `strings.ToLower` for ASCII strings. -/
def goToLower (s : String) : String :=
  ⟨s.data.map Char.toLower⟩

/-! ## internal/security/security.go -/

/-- Loop body of `ValidatePath` over the allowed bases, translated from
`security.go` lines 22-44: skip empty bases, resolve the base with
`filepath.Abs`, resolve the target (absolute paths stand, relative ones
are joined onto the base), accept when the target has the base as a
STRING prefix (`strings.HasPrefix`, security.go line 41). -/
def validateLoop (cwd cleanPath : String) : List String → Option String
  | [] => none
  | base :: rest =>
    if base = "" then validateLoop cwd cleanPath rest
    else
      let absBase := goAbs cwd base
      let absTarget := if goIsAbs cleanPath then cleanPath else goJoin absBase cleanPath
      if hasPrefixStr absBase absTarget then some absTarget
      else validateLoop cwd cleanPath rest

/-- `security.ValidatePath` translated from `security.go` lines 10-47.
`cwd` models the process working directory consulted by
`filepath.Abs`; `none` models the returned error. -/
def ValidatePath (cwd path : String) (allowedBases : List String) : Option String :=
  if path = "" then none
  else validateLoop cwd (goClean path) allowedBases

/-! ## internal/media/progress.go -/

/-- `parseTimeToSeconds` from progress.go: split `HH:MM:SS.ms` on `:`
and combine with `strconv.ParseFloat` on each part (errors ignored),
returning `0` unless there are exactly three parts. -/
def parseTimeToSeconds (timeStr : String) : ℚ :=
  match (splitChar timeStr.data ':').map (fun l => (⟨l⟩ : String)) with
  | [h, m, s] => goParseFloat h * 3600 + goParseFloat m * 60 + goParseFloat s
  | _ => 0

/-- `CalculatePercentage` from progress.go: `int((current/total)*100)`
capped above at 100, and `0` when the total duration is zero. -/
def CalculatePercentage (currentTime : String) (totalDuration : ℚ) : Int :=
  let current := parseTimeToSeconds currentTime
  if totalDuration = 0 then 0
  else
    let percentage := goTrunc (current / totalDuration * 100)
    if percentage > 100 then 100 else percentage

/-- `EstimateETA` from progress.go: remaining seconds over the speed
multiplier (suffix `x` stripped; unparsable or zero speed treated as
1×), formatted `HH:MM:SS`, `00:00:00` when nothing remains. -/
def EstimateETA (currentTime : String) (totalDuration : ℚ) (speed : String) : String :=
  let current := parseTimeToSeconds currentTime
  let remaining := totalDuration - current
  if remaining ≤ 0 then "00:00:00"
  else
    let speedMultiplier := if hasSuffixStr "x" speed then goParseFloat ⟨speed.data.dropLast⟩ else 1
    let speedMultiplier := if speedMultiplier = 0 then 1 else speedMultiplier
    let etaSeconds := remaining / speedMultiplier
    let hours := goTrunc (etaSeconds / 3600)
    let minutes := goTrunc ((etaSeconds - (hours * 3600 : Int)) / 60)
    let seconds := Int.tmod (goTrunc etaSeconds) 60
    format02d hours ++ ":" ++ format02d minutes ++ ":" ++ format02d seconds

/-- A parsed progress frame (progress.go `TranscodeProgress`). -/
structure TranscodeProgress where
  Frame : Int := 0
  FPS : ℚ := 0
  Bitrate : String := ""
  Size : String := ""
  Time : String := ""
  Speed : String := ""
  SpeedMultiplier : ℚ := 0
  Percentage : Int := 0
  ETA : String := ""
  deriving DecidableEq

/-! ## internal/media/makemkv.go -/

/-- A title enumerated by the disc scan (makemkv.go `TitleInfo`). -/
structure TitleInfo where
  Index : Int
  Duration : String
  ChapterCount : Int := 0
  Size : Int := 0
  Description : String := ""
  deriving DecidableEq

/-- Disc-level scan result (makemkv.go `DiscInfo`; the Go field `Type`
is a Lean keyword and is rendered `discType`). -/
structure DiscInfo where
  discType : String := ""
  Name : String := ""
  Titles : List TitleInfo
  deriving DecidableEq

/-- `parseDurationToSeconds` from makemkv.go: `H:MM:SS` split on `:`,
each part through `strconv.Atoi` with the error ignored, `0` unless
there are exactly three parts. -/
def parseDurationToSeconds (duration : String) : Int :=
  match (splitChar duration.data ':').map (fun l => (⟨l⟩ : String)) with
  | [h, m, s] => goAtoi h * 3600 + goAtoi m * 60 + goAtoi s
  | _ => 0

/-- The loop of `FindLargestTitle` (makemkv.go lines 519-530) carrying
the current best index and the strictly growing best duration. -/
def findLargestLoop : List TitleInfo → Int → Int → Int
  | [], largestIdx, _ => largestIdx
  | t :: rest, largestIdx, maxDuration =>
    let duration := parseDurationToSeconds t.Duration
    if duration > maxDuration then findLargestLoop rest t.Index duration
    else findLargestLoop rest largestIdx maxDuration

/-- `DiscInfo.FindLargestTitle` from makemkv.go: `0` on an empty title
list, otherwise the loop starting from index `0` and duration `0`. -/
def DiscInfo.FindLargestTitle (d : DiscInfo) : Int :=
  if d.Titles.length = 0 then 0
  else findLargestLoop d.Titles 0 0

/-- Options of an extraction run (makemkv.go `ExtractOptions`). -/
structure ExtractOptions where
  SourcePath : String
  OutputDir : String
  MinLength : Int := 0
  TitleIndex : Int := 0
  deriving DecidableEq

/-- Probe result of `GetMediaInfo` (ffmpeg.go `MediaInfo`). -/
structure MediaInfo where
  Path : String := ""
  Filename : String := ""
  Duration : ℚ := 0
  Size : Int := 0
  RawJSON : String := ""
  deriving DecidableEq

/-- Options of a transcode run (ffmpeg.go `TranscodeOptions`). -/
structure TranscodeOptions where
  InputPath : String
  OutputPath : String
  GPUVendor : String := ""
  Preset : String := ""
  CRF : Int := 0
  AudioCodec : String := ""
  Container : String := ""
  TotalDuration : ℚ := 0
  Upscale : Bool := false
  Resolution : String := ""
  deriving DecidableEq

/-! ## internal/jobs (manager.go, the persistent version) -/

/-- Job status (manager.go `Status`). -/
inductive Status where
  | pending
  | processing
  | completed
  | failed
  | cancelled
  deriving DecidableEq

/-- Job kind (manager.go `JobType`). -/
inductive JobType where
  | extract
  | optimize
  | test
  deriving DecidableEq

/-- A job record (manager.go `Job`).  Field names follow the Go JSON
tags; the timestamps (`createdAt`, `startedAt`, `completedAt`) are not
modelled, and the ephemeral `ctx`/`cancel` pair is modelled by the
boolean `hasCancel` (whether `job.cancel != nil`). -/
structure Job where
  id : String
  jobType : JobType
  sourcePath : String := ""
  destinationPath : String := ""
  status : Status := .pending
  progress : Int := 0
  eta : String := ""
  fps : ℚ := 0
  priority : Int := 0
  error : String := ""
  createSubtitles : Bool := false
  upscale : Bool := false
  resolution : String := ""
  inputSize : Int := 0
  outputSize : Int := 0
  aiCleaned : Bool := false
  aiSubtitles : Bool := false
  hasCancel : Bool := false
  deriving DecidableEq

/-- The slice of the system configuration the manager reads
(internal/config fields used in manager.go). -/
structure MgrConfig where
  IsPremium : Bool := false
  CRF : Int := 23
  GPUVendor : String := "cpu"
  QualityPreset : String := "medium"
  MaxConcurrentJobs : Int := 2
  deriving DecidableEq

/-- Outcomes of the file-system, subprocess and AI calls a single
`processJob` run performs, passed in explicitly so that the manager's
control flow becomes a pure function of them. -/
structure ProcEnv where
  aiPresent : Bool := false
  cleanFilename : Option String := none
  statSourceSize : Option Int := none
  mkdirExtractErr : Option String := none
  makemkvPresent : Bool := true
  scanDisc : Except String DiscInfo := .error ""
  extract : ExtractOptions → Option String := fun _ => none
  extractEvents : List TranscodeProgress := []
  mkdirDestErr : Option String := none
  globMkv : List String := []
  ffmpegPresent : Bool := true
  getMediaInfo : Except String MediaInfo := .error ""
  analyzeEncoding : Except String Int := .error ""
  transcode : TranscodeOptions → Option String := fun _ => none
  transcodeEvents : List TranscodeProgress := []
  generateSRT : Except String String := .error ""
  testResult : Option String := none
  statDestSize : Option Int := none

/-- File-system effects of a `processJob` run that the claims observe:
creation and removal of the disc-image scratch directory. -/
structure Effects where
  createdExtractDir : Option String := none
  removedExtractDir : Option String := none
  deriving DecidableEq

/-- `Manager.runExtraction` (manager.go lines 330-372): scan, pick the
largest title, make the destination directory, extract with progress
forwarded to `job.Progress`. -/
def runExtraction (env : ProcEnv) (job : Job) : Job × Option String :=
  if ¬ env.makemkvPresent then (job, some "makemkv wrapper not initialized")
  else
    match env.scanDisc with
    | .error e => (job, some ("failed to scan disc: " ++ e))
    | .ok info =>
      if info.Titles.length = 0 then (job, some "no titles found on disc")
      else
        let mainTitleIdx := info.FindLargestTitle
        match env.mkdirDestErr with
        | some e => (job, some ("failed to create destination directory: " ++ e))
        | none =>
          let opts : ExtractOptions :=
            { SourcePath := job.sourcePath, OutputDir := job.destinationPath,
              TitleIndex := mainTitleIdx }
          let job := env.extractEvents.foldl
            (fun j p => { j with progress := p.Percentage }) job
          match env.extract opts with
          | some e => (job, some ("extraction failed: " ++ e))
          | none => (job, none)

/-- `Manager.runOptimization` (manager.go lines 374-442): probe the
input (a probe error is RETURNED, manager.go line 385), premium AI
quality override, transcode with progress forwarded to the job fields,
then the non-fatal premium subtitle phase. -/
def runOptimization (cfg : MgrConfig) (env : ProcEnv) (job : Job) : Job × Option String :=
  if ¬ env.ffmpegPresent then (job, some "ffmpeg wrapper not initialized")
  else
    match env.getMediaInfo with
    | .error e => (job, some ("failed to get media info: " ++ e))
    | .ok info =>
      let crf := cfg.CRF
      let crf := if cfg.IsPremium ∧ env.aiPresent then
          match env.analyzeEncoding with
          | .ok suggestedCRF => suggestedCRF
          | .error _ => crf
        else crf
      let opts : TranscodeOptions :=
        { InputPath := job.sourcePath, OutputPath := job.destinationPath,
          GPUVendor := cfg.GPUVendor, Preset := cfg.QualityPreset, CRF := crf,
          TotalDuration := info.Duration, Upscale := job.upscale,
          Resolution := job.resolution }
      let job := env.transcodeEvents.foldl
        (fun j p => { j with progress := p.Percentage, fps := p.FPS, eta := p.ETA }) job
      match env.transcode opts with
      | some e => (job, some e)
      | none =>
        if cfg.IsPremium ∧ job.createSubtitles ∧ env.aiPresent then
          match env.generateSRT with
          | .ok _ => ({ job with aiSubtitles := true }, none)
          | .error _ => (job, none)
        else (job, none)

/-- Start of `Manager.processJob` (manager.go lines 188-209): create
the cancellation scope, set status Processing, record the input size,
and (premium, Optimize only) rewrite the destination from the AI-cleaned
filename while keeping the extension. -/
def startPhase (cfg : MgrConfig) (env : ProcEnv) (job : Job) : Job :=
  let job := { job with hasCancel := true, status := .processing }
  let job :=
    match env.statSourceSize with
    | some sz => { job with inputSize := sz }
    | none => job
  if cfg.IsPremium ∧ env.aiPresent ∧ job.jobType = .optimize then
    match env.cleanFilename with
    | some cleanTitle =>
      let ext := goExt job.destinationPath
      let dir := goDir job.destinationPath
      { job with aiCleaned := true, destinationPath := goJoin dir (cleanTitle ++ ext) }
    | none => job
  else job

/-- The inlined disc-image pipeline of `processJob` (manager.go lines
216-300).  Every failing step assigns `job.Status = StatusFailed` and a
message to `job.Error` and then `break`s out of the switch.  The
`info, err := m.makemkv.ScanDisc(...)` at line 240 declares a NEW `err`
that shadows the `var err error` of line 211, so the assignment
`err = m.runOptimization(job)` at line 291 also hits the shadowed
variable: the outer `err` that the code after the switch inspects is
never written inside this branch, which is why this function returns
only the mutated job and the effects and the caller treats the outer
error as `none`. -/
def discImageBranch (cfg : MgrConfig) (env : ProcEnv) (job : Job) : Job × Effects :=
  let extractDir := goJoin (goDir job.destinationPath) ("extract_" ++ job.id)
  match env.mkdirExtractErr with
  | some e =>
    ({ job with status := .failed, error := "failed to create extract dir: " ++ e }, {})
  | none =>
    let eff : Effects := { createdExtractDir := some extractDir }
    if ¬ env.makemkvPresent then
      ({ job with status := .failed, error := "makemkv not installed" }, eff)
    else
      match env.scanDisc with
      | .error e => ({ job with status := .failed, error := "scan failed: " ++ e }, eff)
      | .ok info =>
        if info.Titles.length = 0 then
          ({ job with status := .failed, error := "no titles found" }, eff)
        else
          let mainTitleIdx := info.FindLargestTitle
          let opts : ExtractOptions :=
            { SourcePath := job.sourcePath, OutputDir := extractDir,
              TitleIndex := mainTitleIdx }
          let job := env.extractEvents.foldl
            (fun j p => { j with progress := p.Percentage }) job
          match env.extract opts with
          | some extractErr =>
            ({ job with status := .failed, error := "extraction failed: " ++ extractErr }, eff)
          | none =>
            match env.globMkv with
            | [] =>
              let job := { job with status := .failed, error := "extraction finished but no output file found" }
              (job, eff)
            | f0 :: _ =>
              let originalSource := job.sourcePath
              let job := { job with sourcePath := f0 }
              let (job, errInner) := runOptimization cfg env job
              if errInner = none then
                ({ job with sourcePath := originalSource },
                 { eff with removedExtractDir := some extractDir })
              else (job, eff)

/-- Tail of `Manager.processJob` (manager.go lines 308-319): the
generic outcome handling, taking the OUTER `err` of line 211.  There is
no test of an already-Cancelled status on either side of the branch. -/
def finishJob (env : ProcEnv) (job : Job) (err : Option String) : Job :=
  match err with
  | some e => { job with status := .failed, error := e }
  | none =>
    let job := { job with status := .completed, progress := 100 }
    match env.statDestSize with
    | some sz => { job with outputSize := sz }
    | none => job

/-- `Manager.processJob` (manager.go lines 187-328) as the composition
of the start phase, the kind dispatch and the finish phase.  In the
disc-image arm the outer error passed to `finishJob` is `none` on every
path because of the shadowing described at `discImageBranch`. -/
def processJob (cfg : MgrConfig) (env : ProcEnv) (job0 : Job) : Job × Effects :=
  let job := startPhase cfg env job0
  let r : Job × Effects × Option String :=
    match job.jobType with
    | .extract =>
      let (j, e) := runExtraction env job
      (j, {}, e)
    | .optimize =>
      let ext := goToLower (goExt job.sourcePath)
      if ext = ".iso" ∨ ext = ".img" ∨ ext = ".mdf" then
        let (j, eff) := discImageBranch cfg env job
        (j, eff, none)
      else
        let (j, e) := runOptimization cfg env job
        (j, {}, e)
    | .test => (job, {}, env.testResult)
  (finishJob env r.1 r.2.2, r.2.1)

/-- The status rewrite `CancelJob` applies to a located job that has a
live cancellation scope (manager.go lines 172-175). -/
def cancelJobUpdate (j : Job) : Job :=
  { j with status := .cancelled }

/-- `Manager.CancelJob` (manager.go lines 169-178) over the job map
modelled as a list keyed by `id`. -/
def CancelJob (jobs : List Job) (id : String) : List Job × Bool :=
  match jobs.find? (fun j => j.id = id) with
  | some j =>
    if j.hasCancel then
      (jobs.map (fun x => if x.id = id then cancelJobUpdate x else x), true)
    else (jobs, false)
  | none => (jobs, false)

/-- The demotion `Load` applies to each persisted job (manager.go lines
521-525): a persisted Processing status becomes Pending. -/
def demoteOnLoad (j : Job) : Job :=
  if j.status = .processing then { j with status := .pending } else j

/-- Insertion into the job map modelled on a list: replace the entry
with the same id, else append. -/
def insertJob (m : List Job) (j : Job) : List Job :=
  if m.any (fun x => x.id = j.id) then
    m.map (fun x => if x.id = j.id then j else x)
  else m ++ [j]

/-- `Manager.Load` (manager.go lines 501-531) restricted to its effect
on the in-memory map: every unmarshalled job is demoted if Processing
and stored under its id (the map is empty at `NewManager`). -/
def Load (jobList : List Job) : List Job :=
  jobList.foldl (fun m j => insertJob m (demoteOnLoad j)) []

/-- `Manager.RequeuePendingJobs` (manager.go lines 534-549): push every
job whose status is Pending onto the queue; the queue contents produced
by the single pass are returned (map iteration order is arbitrary in
Go, which no claim depends on). -/
def RequeuePendingJobs (jobs : List Job) : List Job :=
  jobs.filter (fun j => j.status = .pending)

/-- Manager state visible to `AddJob`: the job map and the channel
contents (manager.go `Manager.jobs` / `Manager.queue`). -/
structure MState where
  jobs : List Job := []
  queue : List Job := []
  deriving DecidableEq

/-- `Manager.AddJob` (manager.go lines 145-151): store under the id
(overwriting), persist (not modelled), then push onto the queue
unconditionally. -/
def AddJob (s : MState) (job : Job) : MState :=
  { jobs := insertJob s.jobs job, queue := s.queue ++ [job] }

/-- Number of entries of a job list carrying a given id. -/
def countID (l : List Job) (id : String) : Nat :=
  (l.filter (fun j => j.id = id)).length

/-! ## internal/scanner/scanner.go -/

/-- A monitored directory (scanner.go `WatchDirectory`). -/
structure WatchDirectory where
  Path : String
  Recursive : Bool := false
  IncludePatterns : List String := []
  ExcludePatterns : List String := []
  MinFileSizeMB : Int := 0
  MinFileAgeMinutes : Int := 0
  deriving DecidableEq

/-- Scanner configuration (scanner.go `ScannerConfig`; the mode is
kept as its string value). -/
structure ScannerConfig where
  Mode : String := "manual"
  Enabled : Bool := true
  WatchDirectories : List WatchDirectory := []
  ScanIntervalSec : Int := 0
  AutoCreateJobs : Bool := true
  AutoCreateSubtitles : Bool := false
  ProcessedFilePath : String := ""
  DefaultPriority : Int := 0
  OutputDirectory : String := ""
  ExtractExtensions : List String := []
  OptimizeExtensions : List String := []
  deriving DecidableEq

/-- What `os.Stat` reports about a file: its size and how old its
modification time is (`time.Since(info.ModTime())`, here in minutes). -/
structure FileMeta where
  size : Int
  ageMinutes : ℚ
  deriving DecidableEq

/-- The file system and standard-library services a scan consults,
passed in explicitly: `os.Stat`, `filepath.Match` (glob matching),
`filepath.Walk` restricted to the non-directory entries it visits,
the `filepath.Rel`-based containment test of `isInDirectory`, and the
time-seeded id of `generateJobID`.  Their concrete behaviour is
irrelevant to the claims settled here, so they stay abstract. -/
structure ScanEnv where
  stat : String → Option FileMeta
  matchGlob : String → String → Bool
  walk : WatchDirectory → List String
  inDir : String → String → Bool
  newJobID : String → String

/-- Scanner state the claims observe: the key set of the processed-file
database (`ProcessedDB.processed`; the record values carry metadata no
claim inspects) and the job manager. -/
structure ScanState where
  processed : List String
  manager : MState
  deriving DecidableEq

/-- `ProcessedDB.IsProcessed` (scanner.go lines 647-653): key lookup. -/
def IsProcessed (st : ScanState) (path : String) : Bool :=
  st.processed.contains path

/-- `ProcessedDB.MarkProcessed` (scanner.go lines 656-670) restricted
to the key set: the path is recorded unconditionally. -/
def MarkProcessed (st : ScanState) (path : String) : ScanState :=
  { st with processed := if st.processed.contains path then st.processed else path :: st.processed }

/-- `Scanner.matchesPatterns` (scanner.go lines 322-345): excludes win,
an empty include list accepts everything, otherwise some include glob
must match the basename. -/
def matchesPatterns (env : ScanEnv) (wd : WatchDirectory) (path : String) : Bool :=
  let filename := goBase path
  if wd.ExcludePatterns.any (fun pattern => env.matchGlob pattern filename) then false
  else if wd.IncludePatterns.length = 0 then true
  else wd.IncludePatterns.any (fun pattern => env.matchGlob pattern filename)

/-- `Scanner.scanDirectory` (scanner.go lines 289-319): the walked
non-directory entries that match the patterns. -/
def scanDirectory (env : ScanEnv) (wd : WatchDirectory) : List String :=
  (env.walk wd).filter (matchesPatterns env wd)

/-- `Scanner.shouldProcessFile` (scanner.go lines 348-381): reject
already-processed paths, stat failures, too-small and too-new files. -/
def shouldProcessFile (env : ScanEnv) (st : ScanState) (path : String) (wd : WatchDirectory) : Bool :=
  if IsProcessed st path then false
  else
    match env.stat path with
    | none => false
    | some info =>
      if wd.MinFileSizeMB > 0 ∧ Int.tdiv info.size (1024 * 1024) < wd.MinFileSizeMB then false
      else if wd.MinFileAgeMinutes > 0 ∧ info.ageMinutes < (wd.MinFileAgeMinutes : ℚ) then false
      else true

/-- `Scanner.containsExtension` (scanner.go lines 452-459), with
`strings.EqualFold` modelled as ASCII case-insensitive equality. -/
def containsExtension (extensions : List String) (ext : String) : Bool :=
  extensions.any (fun e => goToLower e = goToLower ext)

/-- `Scanner.generateOutputPath` (scanner.go lines 429-449). -/
def generateOutputPath (cfg : ScannerConfig) (inputPath : String) (jobType : JobType) : String :=
  let filename := goBase inputPath
  let ext := goExt filename
  let nameWithoutExt := ⟨filename.data.take (filename.data.length - ext.data.length)⟩
  let outputDir := if cfg.OutputDirectory = "" then goDir inputPath else cfg.OutputDirectory
  match jobType with
  | .extract => goJoin outputDir nameWithoutExt
  | .optimize => goJoin outputDir (nameWithoutExt ++ "_optimized.mkv")
  | _ => goJoin outputDir filename

/-- `Scanner.createJobForFile` (scanner.go lines 384-426): classify by
lower-cased extension, build the Pending job, `AddJob` it, THEN mark
the path processed — unconditionally on any later job outcome. -/
def createJobForFile (cfg : ScannerConfig) (env : ScanEnv) (st : ScanState) (path : String) : ScanState :=
  if ¬ cfg.AutoCreateJobs then st
  else
    let ext := goToLower (goExt path)
    let jobTypeOpt : Option JobType :=
      if containsExtension cfg.ExtractExtensions ext then some .extract
      else if containsExtension cfg.OptimizeExtensions ext then some .optimize
      else none
    match jobTypeOpt with
    | none => st
    | some jobType =>
      let outputPath := generateOutputPath cfg path jobType
      let job : Job :=
        { id := env.newJobID path, jobType := jobType, sourcePath := path,
          destinationPath := outputPath, status := .pending,
          priority := cfg.DefaultPriority, createSubtitles := cfg.AutoCreateSubtitles }
      let st := { st with manager := AddJob st.manager job }
      MarkProcessed st path

/-- `Scanner.ScanAll` (scanner.go lines 252-286) restricted to its
state effect: for every configured directory and every matching walked
file, run `shouldProcessFile` and, when it passes, `createJobForFile`. -/
def scanAll (cfg : ScannerConfig) (env : ScanEnv) (st : ScanState) : ScanState :=
  cfg.WatchDirectories.foldl
    (fun st wd =>
      (scanDirectory env wd).foldl
        (fun st file =>
          if shouldProcessFile env st file wd then createJobForFile cfg env st file else st)
        st)
    st

/-- `Scanner.handleNewFile` (scanner.go lines 527-542) for a create
event: the first watch directory containing the path with matching
patterns handles it; both the immediate branch and the `delayedProcess`
branch re-check `shouldProcessFile` before `createJobForFile`. -/
def handleNewFile (cfg : ScannerConfig) (env : ScanEnv) (st : ScanState) (path : String) : ScanState :=
  match cfg.WatchDirectories.find?
      (fun wd => env.inDir path wd.Path ∧ matchesPatterns env wd path) with
  | none => st
  | some wd =>
    if shouldProcessFile env st path wd then createJobForFile cfg env st path else st

/-! ## Definitions taken from the specification's wording
(for comparison against the code; used by the refinement claims) -/

/-- The percentage formula as the specification words it for claim C6:
`clamp(round(100 · currentSeconds / totalSeconds), 0, 100)` when the
total is positive, else `0`. -/
def specRoundPercentage (currentSeconds totalSeconds : ℚ) : Int :=
  if totalSeconds > 0 then
    min (max (round (100 * currentSeconds / totalSeconds)) 0) 100
  else 0

/-- The speed multiplier the ETA computation uses: the numeric value
before a trailing `x`, with an absent suffix or a zero parse treated as
1× (progress.go lines 151-159). -/
def effectiveSpeedMult (speed : String) : ℚ :=
  let m := if hasSuffixStr "x" speed then goParseFloat ⟨speed.data.dropLast⟩ else 1
  if m = 0 then 1 else m

/-- `HH:MM:SS` rendering of a (nonnegative) number of seconds, as the
specification words it: whole seconds split into hours, minutes and
seconds, each padded to two digits. -/
def formatHMS (q : ℚ) : String :=
  let n := ⌊q⌋
  format02d (n / 3600) ++ ":" ++ format02d (n % 3600 / 60) ++ ":" ++ format02d (n % 60)

/-- The ETA as the specification words it for claim C6: remaining
seconds over the speed, formatted `HH:MM:SS`, `00:00:00` when nothing
remains. -/
def specETA (currentSeconds totalSeconds speedMult : ℚ) : String :=
  if totalSeconds - currentSeconds ≤ 0 then "00:00:00"
  else formatHMS ((totalSeconds - currentSeconds) / speedMult)

/-- The maximum parsed title duration of a title list, floored at `0`
exactly as the loop accumulator of `FindLargestTitle` is. -/
def maxTitleDuration (ts : List TitleInfo) : Int :=
  ts.foldr (fun t m => max (parseDurationToSeconds t.Duration) m) 0

/-- Index of the first title (in list order) attaining the maximum
parsed duration, `0` when no title does. -/
def firstMaxTitleIndex (ts : List TitleInfo) : Int :=
  match ts.find? (fun t => parseDurationToSeconds t.Duration = maxTitleDuration ts) with
  | some t => t.Index
  | none => 0

/-! ## Concrete fixtures used by the closed theorems below -/

/-- A non-premium manager configuration with the defaults of
`internal/config` (CRF 23, CPU, medium preset). -/
def defaultCfg : MgrConfig := {}

/-- Disc-image Optimize job whose scan step fails. -/
def c1Env : ProcEnv := { scanDisc := .error "boom" }

/-- The job of the C1 scenario. -/
def c1Job : Job :=
  { id := "job1", jobType := .optimize, sourcePath := "/in/movie.iso",
    destinationPath := "/out/movie_optimized.mkv" }

/-- One-title disc used by the C2 scenarios. -/
def c2Disc : DiscInfo := { Titles := [{ Index := 1, Duration := "01:30:00" }] }

/-- Disc-image pipeline environment in which scan, extraction and the
probe succeed but the transcode subprocess fails. -/
def c2Env : ProcEnv :=
  { scanDisc := .ok c2Disc, globMkv := ["/out/extract_job2/title_t00.mkv"],
    getMediaInfo := .ok { Duration := 5400 },
    transcode := fun _ => some "ffmpeg failed: boom" }

/-- The job of the C2 scenario. -/
def c2Job : Job :=
  { id := "job2", jobType := .optimize, sourcePath := "/in/movie.iso",
    destinationPath := "/out/movie_optimized.mkv" }

/-- Plain-file Optimize environment whose probe fails while every other
step (including the transcode) would succeed. -/
def c3Env : ProcEnv := { getMediaInfo := .error "boom" }

/-- The job of the C3 scenario, a plain media file. -/
def c3Job : Job :=
  { id := "job3", jobType := .optimize, sourcePath := "/in/a.mkv",
    destinationPath := "/out/a_optimized.mkv" }

/-- The job of the C4 scenario after `processJob` has entered its start
phase (live cancellation scope, status Processing). -/
def c4Running : Job := startPhase {} {} { id := "c4", jobType := .optimize, sourcePath := "/in/a.mkv" }

/-- Tie disc for C8: two titles of equal duration, the larger index
first in list order. -/
def c8TieDisc : DiscInfo :=
  { Titles := [{ Index := 5, Duration := "01:00:00" }, { Index := 2, Duration := "01:00:00" }] }

/-- C9 fixture: two distinct job records sharing one id. -/
def c9Job1 : Job := { id := "j", jobType := .optimize, sourcePath := "/a" }

/-- Second C9 fixture record under the same id. -/
def c9Job2 : Job := { id := "j", jobType := .optimize, sourcePath := "/b" }

/-- Persisted job A of the restart scenario: interrupted mid-run. -/
def c7JobA : Job := { id := "A", jobType := .optimize, status := .processing }

/-- Persisted job B of the restart scenario: still pending. -/
def c7JobB : Job := { id := "B", jobType := .optimize, status := .pending }

/-- Persisted job C of the restart scenario: already finished. -/
def c7JobC : Job := { id := "C", jobType := .optimize, status := .completed }

/-- Disc with a unique longest title (preceded by a shorter one and
followed by a tying one) for the C8 witness. -/
def c8WitnessDisc : DiscInfo :=
  { Titles := [{ Index := 1, Duration := "00:30:00" },
               { Index := 2, Duration := "01:00:00" },
               { Index := 3, Duration := "01:00:00" }] }

/-- Scanner configuration of the C10 witness scenario. -/
def c10Cfg : ScannerConfig :=
  { WatchDirectories := [{ Path := "/m", IncludePatterns := ["*.mkv"] }],
    OutputDirectory := "/out", OptimizeExtensions := [".mkv"] }

/-- Scanner environment of the C10 witness scenario: two large old
files under `/m`, a glob matcher for `*.mkv`. -/
def c10Env : ScanEnv :=
  { stat := fun _ => some { size := 200 * 1024 * 1024, ageMinutes := 100 },
    matchGlob := fun p n => p = "*.mkv" && hasSuffixStr ".mkv" n,
    walk := fun _ => ["/m/a.mkv", "/m/b.mkv"], inDir := fun _ _ => true,
    newJobID := fun p => "id-" ++ p }

/-- Scanner state of the C10 witness scenario: `/m/a.mkv` already
processed (by a job of any terminal outcome), empty manager. -/
def c10St : ScanState := { processed := ["/m/a.mkv"], manager := {} }

/-! ## Helper lemmas -/

/-- Go's `int(f)` truncation agrees with the floor on nonnegative
rationals. -/
theorem goTrunc_eq_floor {q : ℚ} (h : 0 ≤ q) : goTrunc q = ⌊q⌋ := by
  unfold goTrunc
  rw [Rat.floor_def, Int.tdiv_eq_ediv (Rat.num_nonneg.mpr h) (Int.natCast_nonneg _)]

/-- Truncation of a nonnegative rational is nonnegative. -/
theorem goTrunc_nonneg {q : ℚ} (h : 0 ≤ q) : 0 ≤ goTrunc q := by
  rw [goTrunc_eq_floor h]
  exact Int.floor_nonneg.mpr h

/-- Floor of a rational divided by a positive integer is the integer
division of its floor. -/
theorem floor_div_pos_int (q : ℚ) {b : ℤ} (hb : 0 < b) : ⌊q / (b : ℚ)⌋ = ⌊q⌋ / b := by
  have hb0 : (0 : ℚ) < (b : ℚ) := by exact_mod_cast hb
  rw [Int.floor_eq_iff]
  constructor
  · rw [le_div_iff₀ hb0]
    have h1 : (⌊q⌋ / b) * b ≤ ⌊q⌋ := Int.ediv_mul_le _ hb.ne'
    calc ((⌊q⌋ / b : ℤ) : ℚ) * (b : ℚ) = (((⌊q⌋ / b) * b : ℤ) : ℚ) := by push_cast; ring
    _ ≤ ((⌊q⌋ : ℤ) : ℚ) := by exact_mod_cast h1
    _ ≤ q := Int.floor_le q
  · rw [div_lt_iff₀ hb0]
    have h2 : ⌊q⌋ < (⌊q⌋ / b + 1) * b := Int.lt_ediv_add_one_mul_self _ hb
    have h3 : q < (⌊q⌋ : ℚ) + 1 := Int.lt_floor_add_one q
    have h4 : (⌊q⌋ : ℚ) + 1 ≤ (((⌊q⌋ / b + 1) * b : ℤ) : ℚ) := by exact_mod_cast h2
    calc q < (⌊q⌋ : ℚ) + 1 := h3
    _ ≤ (((⌊q⌋ / b + 1) * b : ℤ) : ℚ) := h4
    _ = (↑(⌊q⌋ / b) + 1) * ↑b := by push_cast; ring

/-- The hour/minute/second rendering computed by `EstimateETA` agrees
with the floor-based `HH:MM:SS` rendering on nonnegative inputs. -/
theorem goFormat_eq_formatHMS {q : ℚ} (hq : 0 ≤ q) :
    format02d (goTrunc (q / 3600)) ++ ":"
      ++ format02d (goTrunc ((q - ((goTrunc (q / 3600)) * 3600 : Int)) / 60)) ++ ":"
      ++ format02d (Int.tmod (goTrunc q) 60)
    = formatHMS q := by
  have h3600 : (0 : ℤ) < 3600 := by norm_num
  have h60 : (0 : ℤ) < 60 := by norm_num
  have hdiv : goTrunc (q / 3600) = ⌊q⌋ / 3600 := by
    rw [goTrunc_eq_floor (by positivity)]
    exact_mod_cast floor_div_pos_int q h3600
  have hsub : (0 : ℚ) ≤ q - ((⌊q⌋ / 3600) * 3600 : Int) := by
    have h1 : ((⌊q⌋ / 3600) * 3600 : ℤ) ≤ ⌊q⌋ := Int.ediv_mul_le _ h3600.ne'
    have h2 : (((⌊q⌋ / 3600) * 3600 : ℤ) : ℚ) ≤ (⌊q⌋ : ℚ) := by exact_mod_cast h1
    have h3 := Int.floor_le q
    linarith
  have hmin : goTrunc ((q - ((goTrunc (q / 3600)) * 3600 : Int)) / 60) = ⌊q⌋ % 3600 / 60 := by
    rw [hdiv, goTrunc_eq_floor (by positivity)]
    calc ⌊(q - (((⌊q⌋ / 3600) * 3600 : Int) : ℚ)) / ((60 : ℤ) : ℚ)⌋
        = ⌊q - (((⌊q⌋ / 3600) * 3600 : Int) : ℚ)⌋ / 60 := floor_div_pos_int _ h60
      _ = (⌊q⌋ - (⌊q⌋ / 3600) * 3600) / 60 := by rw [Int.floor_sub_int]
      _ = ⌊q⌋ % 3600 / 60 := by rw [Int.emod_def]; ring_nf
  have hsec : Int.tmod (goTrunc q) 60 = ⌊q⌋ % 60 := by
    rw [goTrunc_eq_floor hq]
    exact Int.tmod_eq_emod (Int.floor_nonneg.mpr hq) h60.le
  rw [formatHMS]
  rw [hmin, hdiv, hsec]

/-- `EstimateETA` agrees with the specification's ETA description once
the speed multiplier is positive: remaining over speed, `HH:MM:SS`. -/
theorem estimateETA_eq (t : String) (total : ℚ) (speed : String)
    (hspd : 0 < effectiveSpeedMult speed) :
    EstimateETA t total speed = specETA (parseTimeToSeconds t) total (effectiveSpeedMult speed) := by
  unfold EstimateETA specETA
  by_cases hrem : total - parseTimeToSeconds t ≤ 0
  · simp only [if_pos hrem]
  · simp only [if_neg hrem]
    have hq : 0 ≤ (total - parseTimeToSeconds t) / effectiveSpeedMult speed := by
      have : 0 < total - parseTimeToSeconds t := lt_of_not_le hrem
      positivity
    have := goFormat_eq_formatHMS hq
    simpa [effectiveSpeedMult] using this

/-- `CalculatePercentage` equals clamped TRUNCATION of
`100 · current / total` on positive totals. -/
theorem calculatePercentage_eq (t : String) (total : ℚ)
    (hcur : 0 ≤ parseTimeToSeconds t) (htot : 0 < total) :
    CalculatePercentage t total
      = min (max (goTrunc (100 * parseTimeToSeconds t / total)) 0) 100 := by
  unfold CalculatePercentage
  rw [if_neg htot.ne']
  have harg : parseTimeToSeconds t / total * 100 = 100 * parseTimeToSeconds t / total := by ring
  rw [harg]
  have h0 : 0 ≤ goTrunc (100 * parseTimeToSeconds t / total) :=
    goTrunc_nonneg (by positivity)
  rcases le_or_lt (goTrunc (100 * parseTimeToSeconds t / total)) 100 with h | h
  · rw [if_neg (not_lt.mpr h)]
    omega
  · rw [if_pos h]
    omega

/-! ## Claim C6 -/

/-- Claim C6, counterexample.  The claim states that the computed
percentage equals `clamp(round(100 · currentSeconds / totalSeconds),
0, 100)`.  At `time=00:00:03` with total duration `16` (the ratio
`18.75` is a dyadic rational, so the Go float computation is exact) the
code truncates to `18` while the claimed rounding yields `19`
(progress.go line 119 converts with `int(...)`, which truncates toward
zero rather than rounding). -/
theorem c6_percentage_truncates_not_rounds :
    CalculatePercentage "00:00:03" 16 = 18
  ∧ specRoundPercentage (parseTimeToSeconds "00:00:03") 16 = 19
  ∧ CalculatePercentage "00:00:03" 16
      ≠ specRoundPercentage (parseTimeToSeconds "00:00:03") 16 := by
  have hp : parseTimeToSeconds "00:00:03" = 3 := by
    show ((0:ℕ):ℚ) * 3600 + ((0:ℕ):ℚ) * 60 + ((3:ℕ):ℚ) = 3
    norm_num
  have h1 : CalculatePercentage "00:00:03" 16 = 18 := by
    have h18 : goTrunc ((3:ℚ) / 16 * 100) = 18 := by
      rw [goTrunc_eq_floor (by norm_num)]
      norm_num
    simp only [CalculatePercentage, hp]
    rw [if_neg (by norm_num : ¬ (16:ℚ) = 0), h18]
    norm_num
  have h2 : specRoundPercentage (parseTimeToSeconds "00:00:03") 16 = 19 := by
    simp only [specRoundPercentage, hp]
    rw [if_pos (by norm_num : (0:ℚ) < 16)]
    rw [show round ((100 * 3 : ℚ) / 16) = 19 from by norm_num [round_eq]]
    decide
  exact ⟨h1, h2, by rw [h1, h2]; decide⟩

/-- Claim C6, amended: for every parsed progress frame, when
`totalSeconds > 0` the computed percentage equals
`clamp(trunc(100 · currentSeconds / totalSeconds), 0, 100)` (truncation
toward zero, NOT rounding) and is `0` when `totalSeconds = 0`; the ETA
equals `(totalSeconds − currentSeconds) / speed` formatted `HH:MM:SS`,
and is `00:00:00` when the remaining time is ≤ 0; a speed that is not
yet known (no `x` suffix, or parsing to zero) is treated as 1×.  (The
hypotheses hold for every genuinely parsed frame: the `time=` and
`speed=` field patterns match only digits, dots and colons.) -/
theorem c6_progress_metrics (t : String) (total : ℚ) (speed : String)
    (hcur : 0 ≤ parseTimeToSeconds t) (hspd : 0 < effectiveSpeedMult speed) :
    (0 < total → CalculatePercentage t total
        = min (max (goTrunc (100 * parseTimeToSeconds t / total)) 0) 100)
  ∧ (total = 0 → CalculatePercentage t total = 0)
  ∧ EstimateETA t total speed
      = specETA (parseTimeToSeconds t) total (effectiveSpeedMult speed) := by
  refine ⟨fun htot => calculatePercentage_eq t total hcur htot, fun htot => ?_,
    estimateETA_eq t total speed hspd⟩
  unfold CalculatePercentage
  rw [if_pos htot]

/-- Witness for C6 at the spec's boundary example: `time=00:30:00`,
`duration=3600`, `speed=2.0x` yields percentage 50 and ETA `00:15:00`. -/
theorem c6_progress_metrics_witness :
    (0 ≤ parseTimeToSeconds "00:30:00" ∧ 0 < effectiveSpeedMult "2.0x")
  ∧ EstimateETA "00:30:00" 3600 "2.0x"
      = specETA (parseTimeToSeconds "00:30:00") 3600 (effectiveSpeedMult "2.0x")
  ∧ CalculatePercentage "00:30:00" 3600 = 50
  ∧ EstimateETA "00:30:00" 3600 "2.0x" = "00:15:00" := by
  have hp : parseTimeToSeconds "00:30:00" = 1800 := by
    show ((0:ℕ):ℚ) * 3600 + ((30:ℕ):ℚ) * 60 + ((0:ℕ):ℚ) = 1800
    norm_num
  have heff : effectiveSpeedMult "2.0x" = 2 := by
    have h : ((2:ℕ):ℚ) + ((0:ℕ):ℚ)/(10:ℚ)^(1:ℕ) = 2 := by norm_num
    rw [show effectiveSpeedMult "2.0x"
        = (if ((2:ℕ):ℚ) + ((0:ℕ):ℚ)/(10:ℚ)^(1:ℕ) = 0 then 1
           else ((2:ℕ):ℚ) + ((0:ℕ):ℚ)/(10:ℚ)^(1:ℕ)) from rfl]
    rw [h]
    norm_num
  have hcur : 0 ≤ parseTimeToSeconds "00:30:00" := by rw [hp]; norm_num
  have hspd : 0 < effectiveSpeedMult "2.0x" := by rw [heff]; norm_num
  refine ⟨⟨hcur, hspd⟩,
    (c6_progress_metrics "00:30:00" 3600 "2.0x" hcur hspd).2.2, ?_, ?_⟩
  · have h50 : goTrunc ((1800:ℚ) / 3600 * 100) = 50 := by
      rw [goTrunc_eq_floor (by norm_num)]
      norm_num
    simp only [CalculatePercentage, hp]
    rw [if_neg (by norm_num : ¬ (3600:ℚ) = 0), h50]
    norm_num
  · rw [estimateETA_eq _ _ _ hspd, hp, heff]
    simp only [specETA]
    rw [if_neg (by norm_num : ¬ (3600:ℚ) - 1800 ≤ 0)]
    rw [show ((3600:ℚ) - 1800) / 2 = 900 from by norm_num]
    simp only [formatHMS]
    rw [show ⌊(900:ℚ)⌋ = 900 from by norm_num]
    rw [show ((900:ℤ)/3600) = 0 from by decide]
    rw [show ((900:ℤ) % 3600 / 60) = 15 from by decide]
    rw [show ((900:ℤ) % 60) = 0 from by decide]
    decide

/-! ## Claim C1 -/

/-- Claim C1 (code bug).  The claim's terminal-state invariant — at the
end of `processJob` either Failed with a non-empty error or Completed
with progress 100 and an empty error, and never Completed with an
error — is violated by the code: on a disc-image Optimize job whose
scan step fails, the branch sets `Status=Failed` and
`Error="scan failed: …"` and breaks (manager.go lines 242-245), but the
`info, err :=` at line 240 shadows the outer `err` of line 211, so the
post-switch handling sees `err == nil` and overwrites the status with
`Completed` and the progress with `100` (lines 311-313) while the
non-empty error string remains.  This theorem evaluates `processJob` at
that failing input. -/
theorem c1_disc_scan_failure_marked_completed :
    (processJob defaultCfg c1Env c1Job).1.status = .completed
  ∧ (processJob defaultCfg c1Env c1Job).1.progress = 100
  ∧ (processJob defaultCfg c1Env c1Job).1.error = "scan failed: boom"
  ∧ (processJob defaultCfg c1Env c1Job).1.error ≠ "" := by
  decide

/-! ## Claim C2 -/

/-- Claim C2 (code bug).  On a disc-image Optimize job the scratch
directory `extract_<jobId>` is created next to the destination and, on
failure, left in place — both as claimed — but the claim's requirement
that "the first error is surfaced as the job's terminal Failed error"
is violated: when the transcoding phase fails, the error assigned at
manager.go line 291 goes into the `err` shadowed at line 240, the outer
`err` stays nil, and the job terminates Completed with progress 100, an
EMPTY error, and `sourcePath` still pointing at the extracted scratch
file (the restore at line 299 only runs on success).  This theorem
evaluates `processJob` at that failing input (scan and extraction
succeed, `ffmpeg` fails). -/
theorem c2_disc_transcode_failure_scratch_kept_but_completed :
    (processJob defaultCfg c2Env c2Job).2.createdExtractDir = some "/out/extract_job2"
  ∧ (processJob defaultCfg c2Env c2Job).2.removedExtractDir = none
  ∧ (processJob defaultCfg c2Env c2Job).1.status = .completed
  ∧ (processJob defaultCfg c2Env c2Job).1.status ≠ .failed
  ∧ (processJob defaultCfg c2Env c2Job).1.error = ""
  ∧ (processJob defaultCfg c2Env c2Job).1.sourcePath = "/out/extract_job2/title_t00.mkv" := by
  decide

/-! ## Claim C5 -/

/-- Claim C5 (code bug).  `ValidatePath` is claimed to reject every
absolute path outside all roots, including a sibling directory whose
name merely has an allowed root as a string prefix.  The code instead
tests containment with `strings.HasPrefix(absTarget, absBase)`
(security.go line 41), so with allowed root `/media` the path
`/media_evil/x` — not `/media` itself and not below `/media/` — is
accepted and returned.  This theorem evaluates `ValidatePath` at that
failing input. -/
theorem c5_validate_path_accepts_prefix_sibling :
    ValidatePath "/" "/media_evil/x" ["/media"] = some "/media_evil/x"
  ∧ goClean "/media_evil/x" = "/media_evil/x"
  ∧ "/media_evil/x" ≠ "/media"
  ∧ hasPrefixStr "/media/" "/media_evil/x" = false := by
  decide

/-! ## Facts about the start phase of processJob -/

/-- The start phase of `processJob` never changes the job kind. -/
theorem startPhase_jobType (cfg : MgrConfig) (env : ProcEnv) (j : Job) :
    (startPhase cfg env j).jobType = j.jobType := by
  unfold startPhase
  cases env.statSourceSize <;> dsimp only <;> split <;>
    first
    | rfl
    | (cases env.cleanFilename <;> rfl)

/-- The start phase of `processJob` never changes the source path (the
premium cleanup rewrites only the destination). -/
theorem startPhase_sourcePath (cfg : MgrConfig) (env : ProcEnv) (j : Job) :
    (startPhase cfg env j).sourcePath = j.sourcePath := by
  unfold startPhase
  cases env.statSourceSize <;> dsimp only <;> split <;>
    first
    | rfl
    | (cases env.cleanFilename <;> rfl)

/-! ## Claim C3 -/

/-- Claim C3, counterexample.  The claim states that a probe
(`getMediaInfo`) failure alone never causes an Optimize job on a plain
media file to fail and that the pipeline proceeds with duration 0.  In
the code `runOptimization` RETURNS the probe error (manager.go lines
382-386), so with every other step succeeding the job still terminates
Failed carrying the probe error. -/
theorem c3_probe_failure_fails_job :
    (processJob defaultCfg c3Env c3Job).1.status = .failed
  ∧ (processJob defaultCfg c3Env c3Job).1.status ≠ .completed
  ∧ (processJob defaultCfg c3Env c3Job).1.error = "failed to get media info: boom" := by
  decide

/-- Claim C3, amended: for every Optimize job on a plain media file
(extension not a disc image), if `getMediaInfo` fails then
`runOptimization` aborts with `failed to get media info: <err>` and the
job terminates Failed — the duration-0 tolerance described by the
specification is not implemented. -/
theorem c3_probe_failure_aborts_optimization (cfg : MgrConfig) (env : ProcEnv)
    (job0 : Job) (e : String)
    (hty : job0.jobType = .optimize)
    (hext : goToLower (goExt job0.sourcePath) ≠ ".iso"
          ∧ goToLower (goExt job0.sourcePath) ≠ ".img"
          ∧ goToLower (goExt job0.sourcePath) ≠ ".mdf")
    (hff : env.ffmpegPresent = true)
    (hprobe : env.getMediaInfo = .error e) :
    (processJob cfg env job0).1.status = .failed
  ∧ (processJob cfg env job0).1.error = "failed to get media info: " ++ e := by
  obtain ⟨h1, h2, h3⟩ := hext
  have hjt : (startPhase cfg env job0).jobType = JobType.optimize := by
    rw [startPhase_jobType, hty]
  have hsp : (startPhase cfg env job0).sourcePath = job0.sourcePath :=
    startPhase_sourcePath _ _ _
  simp only [processJob, hjt, hsp, runOptimization, finishJob, hff, hprobe,
    h1, h2, h3, if_neg, or_self, if_false, not_true, Bool.not_eq_true]
  simp [h1, h2, h3]

/-- Witness for the amended C3 at a concrete plain-file job. -/
theorem c3_probe_failure_aborts_optimization_witness :
    (c3Job.jobType = .optimize
      ∧ (goToLower (goExt c3Job.sourcePath) ≠ ".iso"
          ∧ goToLower (goExt c3Job.sourcePath) ≠ ".img"
          ∧ goToLower (goExt c3Job.sourcePath) ≠ ".mdf")
      ∧ c3Env.ffmpegPresent = true
      ∧ c3Env.getMediaInfo = .error "boom")
  ∧ ((processJob defaultCfg c3Env c3Job).1.status = .failed
      ∧ (processJob defaultCfg c3Env c3Job).1.error = "failed to get media info: " ++ "boom") :=
  ⟨⟨by decide, by decide, by decide, rfl⟩,
   c3_probe_failure_aborts_optimization defaultCfg c3Env c3Job "boom"
     (by decide) (by decide) (by decide) rfl⟩

/-! ## Claim C4 -/

/-- Claim C4, counterexample.  The claim states that after `CancelJob`
sets a Processing job to Cancelled, the later generic error handling of
`processJob` performs no status rewrite and the terminal status stays
Cancelled.  The code's error path (manager.go lines 308-310) carries no
test of the Cancelled status: composing the start phase of `processJob`
(`c4Running`), the `CancelJob` rewrite observed mid-run, and the finish
phase receiving the pipeline's cancelled error shows the terminal
status is Failed, not Cancelled. -/
theorem c4_cancelled_job_rewritten_to_failed :
    (CancelJob [c4Running] "c4").2 = true
  ∧ (CancelJob [c4Running] "c4").1 = [cancelJobUpdate c4Running]
  ∧ (cancelJobUpdate c4Running).status = .cancelled
  ∧ (finishJob {} (cancelJobUpdate c4Running) (some "context canceled")).status = .failed
  ∧ (finishJob {} (cancelJobUpdate c4Running) (some "context canceled")).status ≠ .cancelled
  ∧ (finishJob {} (cancelJobUpdate c4Running) (some "context canceled")).error
      = "context canceled" := by
  decide

/-- Claim C4, amended: `cancelJob` on a job with a live cancellation
scope returns true and sets the status to Cancelled, but when the
pipeline subsequently hands a cancelled error to `processJob`'s generic
error path, that path rewrites the status to Failed with the error
recorded — the Cancelled status does NOT survive to terminal time. -/
theorem c4_error_path_overwrites_cancelled (jobs : List Job) (idStr : String) (j : Job)
    (env : ProcEnv) (e : String)
    (hfind : jobs.find? (fun x => x.id = idStr) = some j)
    (hc : j.hasCancel = true) :
    (CancelJob jobs idStr).2 = true
  ∧ ∀ x ∈ (CancelJob jobs idStr).1, x.id = idStr →
      x.status = .cancelled
    ∧ (finishJob env x (some e)).status = .failed
    ∧ (finishJob env x (some e)).error = e := by
  unfold CancelJob
  rw [hfind]
  dsimp only
  rw [if_pos hc]
  refine ⟨rfl, ?_⟩
  intro x hx hxid
  simp only [List.mem_map] at hx
  obtain ⟨y, hy, rfl⟩ := hx
  by_cases hyid : y.id = idStr
  · rw [if_pos hyid]
    exact ⟨rfl, rfl, rfl⟩
  · rw [if_neg hyid] at hxid
    exact absurd hxid hyid

/-- Witness for the amended C4 at the concrete running job. -/
theorem c4_error_path_overwrites_cancelled_witness :
    ([c4Running].find? (fun x => x.id = "c4") = some c4Running
      ∧ c4Running.hasCancel = true)
  ∧ ((CancelJob [c4Running] "c4").2 = true
      ∧ ∀ x ∈ (CancelJob [c4Running] "c4").1, x.id = "c4" →
          x.status = .cancelled
        ∧ (finishJob {} x (some "context canceled")).status = .failed
        ∧ (finishJob {} x (some "context canceled")).error = "context canceled") :=
  ⟨⟨by decide, by decide⟩,
   c4_error_path_overwrites_cancelled [c4Running] "c4" c4Running {} "context canceled"
     (by decide) (by decide)⟩

/-! ## List helper lemmas for the job map -/

/-- Demotion on load keeps the job id. -/
theorem demoteOnLoad_id (j : Job) : (demoteOnLoad j).id = j.id := by
  unfold demoteOnLoad
  split <;> rfl

/-- Inserting a fresh id into the job map appends. -/
theorem insertJob_append (m : List Job) (j : Job) (h : ∀ x ∈ m, x.id ≠ j.id) :
    insertJob m j = m ++ [j] := by
  unfold insertJob
  rw [if_neg]
  simp only [List.any_eq_true, decide_eq_true_eq, not_exists]
  rintro x ⟨hx, hid⟩
  exact h x hx hid

/-- The `Load` fold over a list of jobs with pairwise distinct ids
appends the demoted jobs one by one. -/
theorem load_aux (l : List Job) :
    ∀ (m : List Job), (∀ j ∈ l, ∀ x ∈ m, x.id ≠ j.id) → (l.map Job.id).Nodup →
    l.foldl (fun m j => insertJob m (demoteOnLoad j)) m = m ++ l.map demoteOnLoad := by
  induction l with
  | nil => intro m _ _; simp
  | cons j rest ih =>
    intro m hdisj hnd
    simp only [List.foldl_cons]
    have h1 : insertJob m (demoteOnLoad j) = m ++ [demoteOnLoad j] := by
      apply insertJob_append
      intro x hx
      rw [demoteOnLoad_id]
      exact hdisj j (List.mem_cons_self j rest) x hx
    rw [h1]
    rw [List.map_cons, List.nodup_cons] at hnd
    obtain ⟨hjid, hnd'⟩ := hnd
    rw [ih (m ++ [demoteOnLoad j]) ?_ hnd']
    · simp
    · intro j' hj' x hx
      rcases List.mem_append.mp hx with hxm | hxj
      · exact hdisj j' (List.mem_cons_of_mem _ hj') x hxm
      · have : x = demoteOnLoad j := by simpa using hxj
        subst this
        rw [demoteOnLoad_id]
        intro heq
        exact hjid (by rw [heq]; exact List.mem_map_of_mem Job.id hj')

/-- With pairwise distinct ids, `Load` is exactly the demotion map. -/
theorem Load_eq_map (jobList : List Job) (hnd : (jobList.map Job.id).Nodup) :
    Load jobList = jobList.map demoteOnLoad := by
  unfold Load
  simpa using load_aux jobList [] (by simp) hnd

/-- No entry for an id absent from a job list. -/
theorem filter_id_nil (l : List Job) (id : String) (h : ∀ x ∈ l, x.id ≠ id) :
    l.filter (fun x => x.id = id) = [] := by
  induction l with
  | nil => rfl
  | cons x rest ih =>
    rw [List.filter_cons]
    rw [if_neg (by simpa using h x (List.mem_cons_self x rest))]
    exact ih (fun y hy => h y (List.mem_cons_of_mem _ hy))

/-- With pairwise distinct ids, filtering a job list by a member's id
yields exactly that member. -/
theorem filter_id_singleton (l : List Job) (hnd : (l.map Job.id).Nodup) (j : Job)
    (hj : j ∈ l) : l.filter (fun x => x.id = j.id) = [j] := by
  induction l with
  | nil => cases hj
  | cons x rest ih =>
    rw [List.map_cons, List.nodup_cons] at hnd
    obtain ⟨hxid, hnd'⟩ := hnd
    rcases List.mem_cons.mp hj with rfl | hjr
    · rw [List.filter_cons, if_pos (by simp)]
      rw [filter_id_nil rest j.id ?_]
      intro y hy heq
      exact hxid (by rw [← heq]; exact List.mem_map_of_mem Job.id hy)
    · rw [List.filter_cons, if_neg ?_]
      · exact ih hnd' hjr
      · simp only [decide_eq_true_eq]
        intro heq
        exact hxid (by rw [heq]; exact List.mem_map_of_mem Job.id hjr)

/-- `countID` distributes over append. -/
theorem countID_append (l1 l2 : List Job) (id : String) :
    countID (l1 ++ l2) id = countID l1 id + countID l2 id := by
  simp [countID, List.filter_append]

/-! ## Claim C7 -/

/-- Claim C7, confirmed: restricted to job lists with pairwise distinct
ids (invariantly true of the map `Load` fills), every persisted job
whose pre-restart status was Processing is loaded with status Pending
(manager.go lines 520-527), and one call of `RequeuePendingJobs`
(lines 534-549) puts every Pending job onto the queue exactly once —
no Pending job is skipped, none is enqueued twice, and nothing
non-Pending is enqueued. -/
theorem c7_restart_recovery (jobList : List Job)
    (hnd : (jobList.map Job.id).Nodup) :
    (∀ j ∈ jobList, j.status = .processing →
       ∃ j' ∈ Load jobList, j'.id = j.id ∧ j'.status = .pending)
  ∧ (∀ j' ∈ Load jobList, j'.status = .pending →
       countID (RequeuePendingJobs (Load jobList)) j'.id = 1)
  ∧ (∀ j' ∈ RequeuePendingJobs (Load jobList), j'.status = .pending) := by
  have hL : Load jobList = jobList.map demoteOnLoad := Load_eq_map _ hnd
  have hndL : ((Load jobList).map Job.id).Nodup := by
    rw [hL, List.map_map]
    have : (Job.id ∘ demoteOnLoad) = Job.id := by
      funext j
      exact demoteOnLoad_id j
    rw [this]
    exact hnd
  refine ⟨?_, ?_, ?_⟩
  · intro j hj hp
    refine ⟨demoteOnLoad j, ?_, demoteOnLoad_id j, ?_⟩
    · rw [hL]
      exact List.mem_map_of_mem _ hj
    · unfold demoteOnLoad
      rw [if_pos hp]
  · intro j' hj' hp
    unfold RequeuePendingJobs countID
    rw [List.filter_filter]
    have hsing : (Load jobList).filter (fun x => x.id = j'.id) = [j'] :=
      filter_id_singleton _ hndL j' hj'
    have hcomm : (fun (a : Job) => decide (a.id = j'.id) && decide (a.status = .pending))
        = (fun (a : Job) => decide (a.status = .pending) && decide (a.id = j'.id)) := by
      funext a
      rw [Bool.and_comm]
    rw [hcomm, ← List.filter_filter, hsing]
    rw [List.filter_cons]
    rw [if_pos (by simpa using hp)]
    rfl
  · intro j' hj'
    unfold RequeuePendingJobs at hj'
    have := List.mem_filter.mp hj'
    simpa using this.2

/-- Witness for C7: the restart scenario of the spec (A interrupted
while Processing, B Pending, C Completed); A is demoted to Pending and
queued exactly once. -/
theorem c7_restart_recovery_witness :
    (([c7JobA, c7JobB, c7JobC].map Job.id).Nodup
  ∧ countID (RequeuePendingJobs (Load [c7JobA, c7JobB, c7JobC])) "A" = 1) :=
  ⟨by decide,
   (c7_restart_recovery [c7JobA, c7JobB, c7JobC] (by decide)).2.1
     (demoteOnLoad c7JobA) (by decide) (by decide)⟩

/-! ## Claim C8 -/

/-- The loop of `FindLargestTitle` never leaves its accumulator when no
duration exceeds it (the comparison at makemkv.go line 524 is strict). -/
theorem findLargestLoop_const (ts : List TitleInfo) (i m : Int)
    (h : ∀ t ∈ ts, parseDurationToSeconds t.Duration ≤ m) :
    findLargestLoop ts i m = i := by
  induction ts generalizing i m with
  | nil => rfl
  | cons t rest ih =>
    have ht := h t (List.mem_cons_self t rest)
    unfold findLargestLoop
    rw [if_neg (not_lt.mpr ht)]
    exact ih i m (fun u hu => h u (List.mem_cons_of_mem _ hu))

/-- The zero-floored maximum duration is nonnegative. -/
theorem maxTitleDuration_nonneg (ts : List TitleInfo) : 0 ≤ maxTitleDuration ts := by
  induction ts with
  | nil => simp [maxTitleDuration]
  | cons t rest ih =>
    unfold maxTitleDuration at ih ⊢
    simp only [List.foldr_cons]
    exact le_trans ih (le_max_right _ _)

/-- Every member's duration is bounded by the maximum. -/
theorem le_maxTitleDuration (ts : List TitleInfo) (t : TitleInfo) (ht : t ∈ ts) :
    parseDurationToSeconds t.Duration ≤ maxTitleDuration ts := by
  induction ts with
  | nil => cases ht
  | cons u rest ih =>
    unfold maxTitleDuration at ih ⊢
    simp only [List.foldr_cons]
    rcases List.mem_cons.mp ht with rfl | htr
    · exact le_max_left _ _
    · exact le_trans (ih htr) (le_max_right _ _)

/-- When the accumulator is below the maximum duration, the loop of
`FindLargestTitle` lands on the FIRST title in list order attaining the
maximum. -/
theorem findLargestLoop_firstMax (ts : List TitleInfo) :
    ∀ (i m : Int), 0 ≤ m → m < maxTitleDuration ts →
    ∃ t, ts.find? (fun t => parseDurationToSeconds t.Duration = maxTitleDuration ts) = some t
       ∧ findLargestLoop ts i m = t.Index := by
  induction ts with
  | nil =>
    intro i m hm hlt
    exact absurd (lt_of_le_of_lt hm hlt) (by simp [maxTitleDuration])
  | cons t rest ih =>
    intro i m hm hlt
    have hM : maxTitleDuration (t :: rest)
        = max (parseDurationToSeconds t.Duration) (maxTitleDuration rest) := rfl
    by_cases hd : parseDurationToSeconds t.Duration = maxTitleDuration (t :: rest)
    · refine ⟨t, ?_, ?_⟩
      · have hdec : decide (parseDurationToSeconds t.Duration
            = maxTitleDuration (t :: rest)) = true := by simpa using hd
        rw [List.find?_cons, hdec]
      · unfold findLargestLoop
        rw [if_pos (by rw [hd]; exact hlt)]
        apply findLargestLoop_const
        intro u hu
        rw [hd]
        exact le_maxTitleDuration _ u (List.mem_cons_of_mem _ hu)
    · have hdlt : parseDurationToSeconds t.Duration < maxTitleDuration (t :: rest) :=
        lt_of_le_of_ne (le_maxTitleDuration _ t (List.mem_cons_self t rest)) hd
      have hMr : maxTitleDuration rest = maxTitleDuration (t :: rest) := by
        rw [hM] at hdlt ⊢
        rcases max_cases (parseDurationToSeconds t.Duration) (maxTitleDuration rest) with
          ⟨heq, _⟩ | ⟨heq, _⟩
        · omega
        · omega
      unfold findLargestLoop
      by_cases hdm : parseDurationToSeconds t.Duration > m
      · rw [if_pos hdm]
        obtain ⟨u, hfind, hloop⟩ := ih t.Index (parseDurationToSeconds t.Duration)
          (le_trans hm hdm.le) (hMr ▸ hdlt)
        refine ⟨u, ?_, hloop⟩
        have hdec : decide (parseDurationToSeconds t.Duration
            = maxTitleDuration (t :: rest)) = false := by simpa using hd
        rw [List.find?_cons, hdec]
        rw [hMr] at hfind
        exact hfind
      · rw [if_neg hdm]
        obtain ⟨u, hfind, hloop⟩ := ih i m hm (hMr ▸ hlt)
        refine ⟨u, ?_, hloop⟩
        have hdec : decide (parseDurationToSeconds t.Duration
            = maxTitleDuration (t :: rest)) = false := by simpa using hd
        rw [List.find?_cons, hdec]
        rw [hMr] at hfind
        exact hfind

/-- Claim C8, counterexample.  The claim states that when several
titles tie for the greatest duration, the SMALLEST index among them is
returned.  On a disc whose titles list holds index 5 before index 2,
both with duration `01:00:00`, the loop's strict comparison keeps the
first-seen title and returns 5, not the smallest index 2. -/
theorem c8_tie_broken_by_list_position :
    parseDurationToSeconds "01:00:00" = 3600
  ∧ c8TieDisc.FindLargestTitle = 5
  ∧ c8TieDisc.FindLargestTitle ≠ 2 := by
  decide

/-- Claim C8, amended: for every `DiscInfo` with a non-empty title
list, `FindLargestTitle` returns the index of the FIRST title in list
order whose parsed duration attains the maximum — ties are broken by
list position, not by smaller index — provided some title has positive
duration; when no title has positive duration (all durations
unparsable or zero) it returns `0` regardless of the indices. -/
theorem c8_find_largest_title_first_max (d : DiscInfo) (hne : d.Titles ≠ []) :
    (0 < maxTitleDuration d.Titles →
        d.FindLargestTitle = firstMaxTitleIndex d.Titles)
  ∧ (maxTitleDuration d.Titles ≤ 0 → d.FindLargestTitle = 0) := by
  constructor
  · intro hpos
    unfold DiscInfo.FindLargestTitle
    rw [if_neg (by simpa using hne)]
    obtain ⟨t, hfind, hloop⟩ := findLargestLoop_firstMax d.Titles 0 0 le_rfl hpos
    rw [hloop]
    unfold firstMaxTitleIndex
    rw [hfind]
  · intro hle
    unfold DiscInfo.FindLargestTitle
    by_cases h0 : d.Titles.length = 0
    · rw [if_pos h0]
    · rw [if_neg h0]
      exact findLargestLoop_const _ _ _
        (fun t ht => le_trans (le_maxTitleDuration _ t ht) hle)

/-- Witness for the amended C8 on a three-title disc: the first title
attaining the one-hour maximum has index 2. -/
theorem c8_find_largest_title_first_max_witness :
    (c8WitnessDisc.Titles ≠ [] ∧ 0 < maxTitleDuration c8WitnessDisc.Titles)
  ∧ c8WitnessDisc.FindLargestTitle = firstMaxTitleIndex c8WitnessDisc.Titles
  ∧ c8WitnessDisc.FindLargestTitle = 2 :=
  ⟨⟨by decide, by decide⟩,
   (c8_find_largest_title_first_max c8WitnessDisc (by decide)).1 (by decide),
   by decide⟩

/-! ## Claim C9 -/

/-- Replacing the entries of a given id by a record carrying that same
id keeps the count for that id. -/
theorem countID_map_replace (m : List Job) (j : Job) (id : String) (hid : j.id = id) :
    countID (m.map (fun x => if x.id = id then j else x)) id = countID m id := by
  induction m with
  | nil => rfl
  | cons x rest ih =>
    simp only [List.map_cons]
    unfold countID at ih ⊢
    rw [List.filter_cons, List.filter_cons]
    by_cases hx : x.id = id
    · rw [if_pos hx]
      rw [if_pos (by simpa using hid), if_pos (by simpa using hx)]
      simpa using ih
    · rw [if_neg hx]
      rw [if_neg (by simpa using hx), if_neg (by simpa using hx)]
      exact ih

/-- Inserting into a duplicate-free job map leaves exactly one entry
under the inserted id. -/
theorem insertJob_countID (m : List Job) (j : Job) (hnd : (m.map Job.id).Nodup) :
    countID (insertJob m j) j.id = 1 := by
  unfold insertJob
  by_cases hany : ∃ x ∈ m, x.id = j.id
  · rw [if_pos (by simpa [List.any_eq_true] using hany)]
    obtain ⟨x, hx, hxid⟩ := hany
    rw [countID_map_replace m j j.id rfl]
    have := filter_id_singleton m hnd x hx
    unfold countID
    rw [← hxid, this]
    rfl
  · rw [if_neg (by simpa [List.any_eq_true] using hany)]
    rw [countID_append]
    have h0 : countID m j.id = 0 := by
      unfold countID
      rw [filter_id_nil m j.id (fun x hx heq => hany ⟨x, hx, heq⟩)]
      rfl
    rw [h0]
    unfold countID
    rw [List.filter_cons, if_pos (by simp)]
    rfl

/-- Insertion preserves freedom from duplicate ids. -/
theorem insertJob_nodup (m : List Job) (j : Job) (hnd : (m.map Job.id).Nodup) :
    ((insertJob m j).map Job.id).Nodup := by
  unfold insertJob
  by_cases hany : ∃ x ∈ m, x.id = j.id
  · rw [if_pos (by simpa [List.any_eq_true] using hany)]
    have : (m.map (fun x => if x.id = j.id then j else x)).map Job.id = m.map Job.id := by
      rw [List.map_map]
      apply List.map_congr_left
      intro x _
      by_cases hx : x.id = j.id
      · simp [hx]
      · simp [hx]
    rw [this]
    exact hnd
  · rw [if_neg (by simpa [List.any_eq_true] using hany)]
    rw [List.map_append, List.nodup_append]
    refine ⟨hnd, by simp, ?_⟩
    intro a ha
    simp only [List.map_cons, List.map_nil, List.mem_singleton]
    intro hb
    obtain ⟨x, hx, rfl⟩ := List.mem_map.mp ha
    exact hany ⟨x, hx, hb⟩

/-- Claim C9, counterexample.  The claim states that after two `AddJob`
calls with the same id no duplicate queue entry is observable.  The map
indeed keeps a single (second) record, but `AddJob` pushes onto the
queue unconditionally (manager.go line 150), so the queue holds TWO
entries under the id and a worker would receive the job twice. -/
theorem c9_duplicate_queue_entries :
    (AddJob (AddJob {} c9Job1) c9Job2).jobs = [c9Job2]
  ∧ countID (AddJob (AddJob {} c9Job1) c9Job2).queue "j" = 2
  ∧ ¬ countID (AddJob (AddJob {} c9Job1) c9Job2).queue "j" ≤ 1 := by
  decide

/-- Claim C9, amended: calling `AddJob` twice with jobs carrying the
same id leaves exactly one job under that id in the manager's map (the
second call overwrites the first), but each call pushes a queue entry,
so the queue gains TWO entries under that id — the duplicate dispatch
is observable. -/
theorem c9_addjob_overwrites_map_but_queues_twice (s : MState) (j1 j2 : Job)
    (hnd : (s.jobs.map Job.id).Nodup) (hid : j1.id = j2.id) :
    countID (AddJob (AddJob s j1) j2).jobs j2.id = 1
  ∧ countID (AddJob (AddJob s j1) j2).queue j2.id
      = countID s.queue j2.id + 2 := by
  constructor
  · have h1 : ((insertJob s.jobs j1).map Job.id).Nodup := insertJob_nodup _ _ hnd
    exact insertJob_countID _ _ h1
  · show countID ((s.queue ++ [j1]) ++ [j2]) j2.id = countID s.queue j2.id + 2
    rw [countID_append, countID_append]
    have ha : countID [j1] j2.id = 1 := by
      unfold countID
      rw [List.filter_cons, if_pos (by simpa using hid)]
      rfl
    have hb : countID [j2] j2.id = 1 := by
      unfold countID
      rw [List.filter_cons, if_pos (by simp)]
      rfl
    rw [ha, hb]

/-- Witness for the amended C9 on the two concrete same-id records. -/
theorem c9_addjob_overwrites_map_but_queues_twice_witness :
    ((({} : MState).jobs.map Job.id).Nodup ∧ c9Job1.id = c9Job2.id)
  ∧ countID (AddJob (AddJob {} c9Job1) c9Job2).jobs c9Job2.id = 1
  ∧ countID (AddJob (AddJob {} c9Job1) c9Job2).queue c9Job2.id
      = countID ({} : MState).queue c9Job2.id + 2 :=
  ⟨⟨by decide, by decide⟩,
   (c9_addjob_overwrites_map_but_queues_twice {} c9Job1 c9Job2 (by decide) (by decide)).1,
   (c9_addjob_overwrites_map_but_queues_twice {} c9Job1 c9Job2 (by decide) (by decide)).2⟩

/-! ## Claim C10 -/

/-- Marking keeps every previously recorded path. -/
theorem mark_keeps (st : ScanState) (p q : String) (hp : p ∈ st.processed) :
    p ∈ (MarkProcessed st q).processed := by
  unfold MarkProcessed
  dsimp only
  split
  · exact hp
  · exact List.mem_cons_of_mem _ hp

/-- Marking records the marked path. -/
theorem mark_self (st : ScanState) (q : String) : q ∈ (MarkProcessed st q).processed := by
  unfold MarkProcessed
  dsimp only
  split
  · next hc => simpa using hc
  · exact List.mem_cons_self _ _

/-- `createJobForFile` never forgets a processed path. -/
theorem createJob_processed_mono (cfg : ScannerConfig) (env : ScanEnv) (st : ScanState)
    (q p : String) (hp : p ∈ st.processed) :
    p ∈ (createJobForFile cfg env st q).processed := by
  unfold createJobForFile
  split
  · exact hp
  · dsimp only
    split
    · exact hp
    · exact mark_keeps _ p q hp

/-- `createJobForFile` either leaves the queue unchanged or appends one
job whose source path is the handled file. -/
theorem createJob_queue_cases (cfg : ScannerConfig) (env : ScanEnv) (st : ScanState)
    (q : String) :
    (createJobForFile cfg env st q).manager.queue = st.manager.queue
  ∨ ∃ job : Job, job.sourcePath = q
      ∧ (createJobForFile cfg env st q).manager.queue = st.manager.queue ++ [job] := by
  unfold createJobForFile
  split
  · exact Or.inl rfl
  · dsimp only
    split
    · exact Or.inl rfl
    · exact Or.inr ⟨_, rfl, rfl⟩

/-- Whenever `createJobForFile` changes the queue it has also marked
the path — enqueueing and marking happen in the same step, before the
job ever runs. -/
theorem createJob_enqueue_or_marks (cfg : ScannerConfig) (env : ScanEnv) (st : ScanState)
    (q : String) :
    (createJobForFile cfg env st q).manager.queue = st.manager.queue
  ∨ q ∈ (createJobForFile cfg env st q).processed := by
  unfold createJobForFile
  split
  · exact Or.inl rfl
  · dsimp only
    split
    · exact Or.inl rfl
    · exact Or.inr (mark_self _ q)

/-- A positive `shouldProcessFile` implies the path was not recorded as
processed (the check at scanner.go line 350 comes first). -/
theorem shouldProcess_not_processed (env : ScanEnv) (st : ScanState) (q : String)
    (wd : WatchDirectory) (h : shouldProcessFile env st q wd = true) :
    q ∉ st.processed := by
  intro hq
  unfold shouldProcessFile at h
  rw [if_pos ?_] at h
  · exact Bool.false_ne_true h
  · unfold IsProcessed
    simpa using hq

/-- One guarded step of the scan loop keeps a processed path recorded
and never enqueues a job for it. -/
theorem step_invariant (cfg : ScannerConfig) (env : ScanEnv) (wd : WatchDirectory)
    (st : ScanState) (q p : String) (hp : p ∈ st.processed) :
    p ∈ (if shouldProcessFile env st q wd then createJobForFile cfg env st q else st).processed
  ∧ (if shouldProcessFile env st q wd then createJobForFile cfg env st q else st).manager.queue.filter
        (fun j => j.sourcePath = p)
      = st.manager.queue.filter (fun j => j.sourcePath = p) := by
  by_cases hs : shouldProcessFile env st q wd = true
  · rw [if_pos hs]
    have hqp : q ≠ p := fun h => shouldProcess_not_processed env st q wd hs (h ▸ hp)
    refine ⟨createJob_processed_mono cfg env st q p hp, ?_⟩
    rcases createJob_queue_cases cfg env st q with heq | ⟨job, hjob, heq⟩
    · rw [heq]
    · rw [heq, List.filter_append]
      rw [show List.filter (fun j => decide (j.sourcePath = p)) [job] = [] from ?_]
      · simp
      · rw [List.filter_cons, if_neg (by simp [hjob, hqp])]
        rfl
  · rw [if_neg hs]
    exact ⟨hp, rfl⟩

/-- The per-directory file loop of `ScanAll` preserves the invariant. -/
theorem scanFold_invariant (cfg : ScannerConfig) (env : ScanEnv) (wd : WatchDirectory)
    (files : List String) :
    ∀ (st : ScanState) (p : String), p ∈ st.processed →
    p ∈ (files.foldl
        (fun st file =>
          if shouldProcessFile env st file wd then createJobForFile cfg env st file else st)
        st).processed
  ∧ (files.foldl
        (fun st file =>
          if shouldProcessFile env st file wd then createJobForFile cfg env st file else st)
        st).manager.queue.filter (fun j => j.sourcePath = p)
      = st.manager.queue.filter (fun j => j.sourcePath = p) := by
  induction files with
  | nil => intro st p hp; exact ⟨hp, rfl⟩
  | cons q rest ih =>
    intro st p hp
    simp only [List.foldl_cons]
    obtain ⟨h1, h2⟩ := step_invariant cfg env wd st q p hp
    obtain ⟨h3, h4⟩ := ih _ p h1
    exact ⟨h3, h4.trans h2⟩

/-- Claim C10, confirmed: `createJobForFile` marks a path processed in
the same step that enqueues its job (before the job runs), and once a
path is in the processed store — regardless of how the jobs in the
manager have since evolved, in particular after the path's job
terminated Failed or Cancelled, since the state `st` here carries an
arbitrary manager — neither a subsequent `ScanAll` nor a watcher create
event for any path enqueues a new job whose source is that path. -/
theorem c10_processed_suppresses_reenqueue (cfg : ScannerConfig) (env : ScanEnv)
    (st : ScanState) (p : String) (hp : p ∈ st.processed) :
    p ∈ (scanAll cfg env st).processed
  ∧ (scanAll cfg env st).manager.queue.filter (fun j => j.sourcePath = p)
      = st.manager.queue.filter (fun j => j.sourcePath = p)
  ∧ (∀ q, (handleNewFile cfg env st q).manager.queue.filter (fun j => j.sourcePath = p)
      = st.manager.queue.filter (fun j => j.sourcePath = p))
  ∧ (∀ q, (createJobForFile cfg env st q).manager.queue ≠ st.manager.queue →
      q ∈ (createJobForFile cfg env st q).processed) := by
  have hscan : ∀ (dirs : List WatchDirectory) (st' : ScanState), p ∈ st'.processed →
      p ∈ (dirs.foldl
        (fun st wd =>
          (scanDirectory env wd).foldl
            (fun st file =>
              if shouldProcessFile env st file wd then createJobForFile cfg env st file else st)
            st)
        st').processed
    ∧ (dirs.foldl
        (fun st wd =>
          (scanDirectory env wd).foldl
            (fun st file =>
              if shouldProcessFile env st file wd then createJobForFile cfg env st file else st)
            st)
        st').manager.queue.filter (fun j => j.sourcePath = p)
      = st'.manager.queue.filter (fun j => j.sourcePath = p) := by
    intro dirs
    induction dirs with
    | nil => intro st' hp'; exact ⟨hp', rfl⟩
    | cons wd rest ih =>
      intro st' hp'
      simp only [List.foldl_cons]
      obtain ⟨h1, h2⟩ := scanFold_invariant cfg env wd (scanDirectory env wd) st' p hp'
      obtain ⟨h3, h4⟩ := ih _ h1
      exact ⟨h3, h4.trans h2⟩
  obtain ⟨hA, hB⟩ := hscan cfg.WatchDirectories st hp
  refine ⟨hA, hB, ?_, ?_⟩
  · intro q
    unfold handleNewFile
    split
    · rfl
    · exact (step_invariant cfg env _ st q p hp).2
  · intro q hne
    rcases createJob_enqueue_or_marks cfg env st q with h | h
    · exact absurd h hne
    · exact h

/-- Witness for C10: `/m/a.mkv` is recorded as processed; a fresh
`ScanAll` over `/m` enqueues no job for it (while the unprocessed
`/m/b.mkv` still yields exactly one new job). -/
theorem c10_processed_suppresses_reenqueue_witness :
    ("/m/a.mkv" ∈ c10St.processed)
  ∧ "/m/a.mkv" ∈ (scanAll c10Cfg c10Env c10St).processed
  ∧ (scanAll c10Cfg c10Env c10St).manager.queue.filter
        (fun j => j.sourcePath = "/m/a.mkv")
      = c10St.manager.queue.filter (fun j => j.sourcePath = "/m/a.mkv")
  ∧ (scanAll c10Cfg c10Env c10St).manager.queue.length = 1 :=
  ⟨by decide,
   (c10_processed_suppresses_reenqueue c10Cfg c10Env c10St "/m/a.mkv" (by decide)).1,
   (c10_processed_suppresses_reenqueue c10Cfg c10Env c10St "/m/a.mkv" (by decide)).2.1,
   by decide⟩

end MediaConverter
